import Mathlib

/-!
Verification of the clay_mode Blender add-on.

The repository holds two versions of the add-on:
the top level src module (version 1.4.0) and the older bundled
clay_mode_addon module (version 1.1).  Both define an operator
material.override_toggle over the view layer material override, and the
top level module additionally defines the operator clay.group_with_summary
that groups the selected objects under a bounding box empty.

Embedding choices, faithful to the Python source:
a Blender material is identified by its name (the code only ever reads
material.name and looks materials up by name in bpy.data.materials), so
bpy.data.materials is a list of names; the scene key
stored_material_override is an optional string; the view layer material
override is an optional material.  Scene objects carry their name, an
optional parent name, the eight bound_box corners, the world matrix, a
location and a scale; coordinates are rational numbers standing for the
exact field arithmetic the claims speak about.  Python truthiness of an
optional string (None and the empty string are falsy) is modelled
explicitly.
-/

/-- Result status of a Blender operator execute method. -/
inductive OpStatus where
  | FINISHED
  | CANCELLED
deriving DecidableEq

/-- The state read and written by the material.override_toggle operator:
the view layer material override, the scene key stored_material_override
and the collection bpy.data.materials, with materials embedded as their
names. -/
structure MatState where
  material_override : Option String
  stored_material_override : Option String
  materials : List String
deriving DecidableEq

/-- Three digit numeric suffix used by Blender when it has to deduplicate
the name of a new ID, as in Name.001. -/
def pad3 (k : Nat) : String :=
  if k < 10 then "00" ++ toString k
  else if k < 100 then "0" ++ toString k
  else toString k

/-- Candidate names tried by Blender for a new ID: the base name, then
base.001, base.002 and so on. -/
def numberedName (base : String) (k : Nat) : String :=
  if k = 0 then base else base ++ "." ++ pad3 k

/-- Models how a bpy.data collection picks the name of a newly created ID:
the first candidate not already used.  The fallback branch is unreachable
because among length plus two distinct candidates one is always free. -/
def uniqueName (base : String) (used : List String) : String :=
  match (List.range (used.length + 2)).find? (fun k => !(used.contains (numberedName base k))) with
  | some k => numberedName base k
  | none => base

/-- Models bpy.data.materials.get: the lookup of a material by name. -/
def materials_get (mats : List String) (n : String) : Option String :=
  if n ∈ mats then some n else none

/-- Shallow embedding of create_clay_material from src.  The shader node
graph it builds is host API glue that the spec rules out of scope; what the
toggle observes is that a new material named M_ClayMode_Override (with the
name deduplicated by Blender) is added to bpy.data.materials and returned. -/
def create_clay_material (mats : List String) : String × List String :=
  (uniqueName "M_ClayMode_Override" mats, mats ++ [uniqueName "M_ClayMode_Override" mats])

/-- Embedding of MATERIAL_OT_OverrideToggle.execute from src (version
1.4.0).  When an override is active its name is stored and the override is
cleared; otherwise the stored name is looked up (Python truthiness: None
and the empty string skip the lookup) and a clay material is created when
the lookup yields nothing. -/
def override_toggle (s : MatState) : OpStatus × MatState :=
  match s.material_override with
  | some m =>
      (OpStatus.FINISHED,
        { s with stored_material_override := some m, material_override := none })
  | none =>
      let material : Option String :=
        match s.stored_material_override with
        | some n => if n = "" then none else materials_get s.materials n
        | none => none
      match material with
      | some m => (OpStatus.FINISHED, { s with material_override := some m })
      | none =>
          let created := create_clay_material s.materials
          (OpStatus.FINISHED,
            { material_override := some created.1,
              stored_material_override := some created.1,
              materials := created.2 })

/-- Embedding of MATERIAL_OT_OverrideToggle.execute from the bundled
clay_mode_addon module (version 1.1).  It never creates a material: when
the stored name is missing, empty or matches no material it only reports a
warning and leaves the state unchanged. -/
def override_toggle_addon (s : MatState) : OpStatus × MatState :=
  match s.material_override with
  | some m =>
      (OpStatus.FINISHED,
        { s with stored_material_override := some m, material_override := none })
  | none =>
      match s.stored_material_override with
      | some n =>
          if n = "" then (OpStatus.FINISHED, s)
          else
            match materials_get s.materials n with
            | some m => (OpStatus.FINISHED, { s with material_override := some m })
            | none => (OpStatus.FINISHED, s)
      | none => (OpStatus.FINISHED, s)

/-- C1: when a material override is active, the toggle stores its name
under the scene key stored_material_override and clears the override, in
both implementations of the operator. -/
theorem C1_toggle_disable_stores_name (s : MatState) (m : String)
    (h : s.material_override = some m) :
    override_toggle s =
      (OpStatus.FINISHED,
        { material_override := none, stored_material_override := some m,
          materials := s.materials }) ∧
    override_toggle_addon s =
      (OpStatus.FINISHED,
        { material_override := none, stored_material_override := some m,
          materials := s.materials }) := by
  constructor <;> simp [override_toggle, override_toggle_addon, h]

theorem C1_toggle_disable_stores_name_witness :
    (MatState.mk (some "Mat") none ["Mat"]).material_override = some "Mat" ∧
    (override_toggle (MatState.mk (some "Mat") none ["Mat"]) =
      (OpStatus.FINISHED, MatState.mk none (some "Mat") ["Mat"]) ∧
    override_toggle_addon (MatState.mk (some "Mat") none ["Mat"]) =
      (OpStatus.FINISHED, MatState.mk none (some "Mat") ["Mat"])) :=
  ⟨rfl, C1_toggle_disable_stores_name (MatState.mk (some "Mat") none ["Mat"]) "Mat" rfl⟩

/-- C2: when no override is active and the stored key is absent or names
no material, the src implementation of the toggle creates a clay override
material, records its name under stored_material_override and enables the
override with it. -/
theorem C2_toggle_fallback_creates (s : MatState)
    (h1 : s.material_override = none)
    (h2 : s.stored_material_override = none ∨
          ∃ n, s.stored_material_override = some n ∧ n ∉ s.materials) :
    override_toggle s =
      (OpStatus.FINISHED,
        { material_override := some (uniqueName "M_ClayMode_Override" s.materials),
          stored_material_override := some (uniqueName "M_ClayMode_Override" s.materials),
          materials := s.materials ++ [uniqueName "M_ClayMode_Override" s.materials] }) := by
  rcases h2 with h2 | ⟨n, h2, h3⟩
  · simp [override_toggle, create_clay_material, h1, h2]
  · simp [override_toggle, create_clay_material, materials_get, h1, h2, h3]

theorem C2_toggle_fallback_creates_witness :
    ((MatState.mk none none []).material_override = none ∧
     ((MatState.mk none none []).stored_material_override = none ∨
       ∃ n, (MatState.mk none none []).stored_material_override = some n ∧
         n ∉ (MatState.mk none none []).materials)) ∧
    override_toggle (MatState.mk none none []) =
      (OpStatus.FINISHED,
        MatState.mk (some (uniqueName "M_ClayMode_Override" []))
          (some (uniqueName "M_ClayMode_Override" []))
          ([] ++ [uniqueName "M_ClayMode_Override" []])) :=
  ⟨⟨rfl, Or.inl rfl⟩, C2_toggle_fallback_creates (MatState.mk none none []) rfl (Or.inl rfl)⟩

/-- C3 counterexample: on the state with no active override, no stored
name and no materials, the two implementations of the toggle end in
different states, so they are not equivalent on every input state. -/
theorem C3_counterexample_toggles_differ :
    override_toggle (MatState.mk none none []) ≠
      override_toggle_addon (MatState.mk none none []) := by
  decide

/-- C3 amended: the two implementations of the toggle agree on every state
in which an override is active, or in which the stored key holds a non
empty name of an existing material; only the fallback behaviour differs. -/
theorem C3_amended_toggles_agree (s : MatState)
    (h : (∃ m, s.material_override = some m) ∨
         ∃ n, s.stored_material_override = some n ∧ n ≠ "" ∧ n ∈ s.materials) :
    override_toggle s = override_toggle_addon s := by
  cases hmo : s.material_override with
  | some m => simp [override_toggle, override_toggle_addon, hmo]
  | none =>
      rcases h with ⟨m, hm⟩ | ⟨n, hn, hne, hmem⟩
      · rw [hmo] at hm; exact absurd hm (by simp)
      · simp [override_toggle, override_toggle_addon, hmo, hn, hne, materials_get, hmem]

theorem C3_amended_toggles_agree_witness :
    ((∃ m, (MatState.mk none (some "Mat") ["Mat"]).material_override = some m) ∨
      ∃ n, (MatState.mk none (some "Mat") ["Mat"]).stored_material_override = some n ∧
        n ≠ "" ∧ n ∈ (MatState.mk none (some "Mat") ["Mat"]).materials) ∧
    override_toggle (MatState.mk none (some "Mat") ["Mat"]) =
      override_toggle_addon (MatState.mk none (some "Mat") ["Mat"]) :=
  ⟨Or.inr ⟨"Mat", rfl, by decide, by decide⟩,
    C3_amended_toggles_agree (MatState.mk none (some "Mat") ["Mat"])
      (Or.inr ⟨"Mat", rfl, by decide, by decide⟩)⟩

/-- C4: toggling twice from a state whose active override material is
present in bpy.data.materials under its own name restores that override,
in both implementations.  The hypothesis that the name is non empty is the
Blender invariant that ID names are never empty. -/
theorem C4_double_toggle_roundtrip (s : MatState) (m : String)
    (h1 : s.material_override = some m) (h2 : m ∈ s.materials) (h3 : m ≠ "") :
    (override_toggle (override_toggle s).2).2.material_override = some m ∧
    (override_toggle_addon (override_toggle_addon s).2).2.material_override = some m := by
  constructor <;>
    simp [override_toggle, override_toggle_addon, h1, h3, materials_get, h2]

theorem C4_double_toggle_roundtrip_witness :
    ((MatState.mk (some "Mat") none ["Mat"]).material_override = some "Mat" ∧
      "Mat" ∈ (MatState.mk (some "Mat") none ["Mat"]).materials ∧ "Mat" ≠ "") ∧
    ((override_toggle (override_toggle (MatState.mk (some "Mat") none ["Mat"])).2).2.material_override = some "Mat" ∧
     (override_toggle_addon (override_toggle_addon (MatState.mk (some "Mat") none ["Mat"])).2).2.material_override = some "Mat") :=
  ⟨⟨rfl, by decide, by decide⟩,
    C4_double_toggle_roundtrip (MatState.mk (some "Mat") none ["Mat"]) "Mat" rfl
      (by decide) (by decide)⟩

/-- C10: both implementations of the toggle return FINISHED on every input
state and never CANCELLED, also when no stored name exists or the stored
name matches no material. -/
theorem C10_toggle_always_finished :
    ∀ s : MatState, (override_toggle s).1 = OpStatus.FINISHED ∧
      (override_toggle_addon s).1 = OpStatus.FINISHED := by
  intro s
  obtain ⟨mo, st, mats⟩ := s
  cases mo with
  | some m => exact ⟨rfl, rfl⟩
  | none =>
      cases st with
      | none => exact ⟨rfl, rfl⟩
      | some n =>
          constructor
          · simp only [override_toggle]
            rcases hc : (if n = "" then none else materials_get mats n) with _ | m <;>
              simp [hc]
          · simp only [override_toggle_addon]
            by_cases hne : n = ""
            · simp [hne]
            · rcases hc : materials_get mats n with _ | m <;> simp [hne, hc]

/-- A three dimensional vector with exact rational coordinates, standing
for a mathutils Vector. -/
structure V3 where
  x : ℚ
  y : ℚ
  z : ℚ
deriving DecidableEq

/-- Componentwise minimum, as in Vector(map(min, a, b)). -/
def V3.vmin (a b : V3) : V3 :=
  ⟨min a.x b.x, min a.y b.y, min a.z b.z⟩

/-- Componentwise maximum, as in Vector(map(max, a, b)). -/
def V3.vmax (a b : V3) : V3 :=
  ⟨max a.x b.x, max a.y b.y, max a.z b.z⟩

/-- Vector addition. -/
def V3.add (a b : V3) : V3 :=
  ⟨a.x + b.x, a.y + b.y, a.z + b.z⟩

/-- Vector subtraction. -/
def V3.sub (a b : V3) : V3 :=
  ⟨a.x - b.x, a.y - b.y, a.z - b.z⟩

/-- Division of a vector by two. -/
def V3.half (a : V3) : V3 :=
  ⟨a.x / 2, a.y / 2, a.z / 2⟩

/-- The affine part of a Blender 4x4 world matrix: a linear part and a
translation, applied to a vector exactly as matrix_world matmul Vector. -/
structure Mat4 where
  a00 : ℚ
  a01 : ℚ
  a02 : ℚ
  a03 : ℚ
  a10 : ℚ
  a11 : ℚ
  a12 : ℚ
  a13 : ℚ
  a20 : ℚ
  a21 : ℚ
  a22 : ℚ
  a23 : ℚ
deriving DecidableEq

/-- Application of a world matrix to a corner, as in
obj.matrix_world matmul Vector(corner). -/
def Mat4.apply (M : Mat4) (v : V3) : V3 :=
  ⟨M.a00 * v.x + M.a01 * v.y + M.a02 * v.z + M.a03,
   M.a10 * v.x + M.a11 * v.y + M.a12 * v.z + M.a13,
   M.a20 * v.x + M.a21 * v.y + M.a22 * v.z + M.a23⟩

/-- The identity world matrix, the transform of a freshly added object. -/
def Mat4.id : Mat4 :=
  ⟨1, 0, 0, 0, 0, 1, 0, 0, 0, 0, 1, 0⟩

/-- A scene object as the grouping operator sees it: its name, the name of
its parent if any, its local bound_box corners, its world matrix, and the
location and scale the operator writes on the empty it creates. -/
structure GObj where
  name : String
  parent : Option String
  bound_box : List V3
  matrix_world : Mat4
  location : V3
  scale : V3
deriving DecidableEq

/-- The names of the objects of a scene. -/
def sceneNames (scn : List GObj) : List String :=
  scn.map GObj.name

/-- The names of the children of the object named p, mirroring
obj.children, which Blender derives from the parent pointers. -/
def childNames (scn : List GObj) (p : String) : List String :=
  (scn.filter (fun o => decide (o.parent = some p))).map GObj.name

/-- Embedding of CLAY_OT_GroupWithSummary.gather_all_objects: the set of
the given objects together with the recursively gathered children.  The
Python recursion carries no fuel; the fuel argument bounds the recursion
depth, and the scene size is enough fuel on any acyclic hierarchy (claim
C9). -/
def gather_all_objects (scn : List GObj) : Nat → List String → Finset String
  | 0, ns => ns.toFinset
  | fuel + 1, ns =>
      ns.foldl (fun acc n => acc ∪ gather_all_objects scn fuel (childNames scn n)) ns.toFinset

/-- Reachability in at most a given number of child steps. -/
def StepsLe (scn : List GObj) : Nat → String → String → Prop
  | 0, a, n => n = a
  | fuel + 1, a, n => n = a ∨ ∃ c ∈ childNames scn a, StepsLe scn fuel c n

/-- The descendant relation: Desc scn a n holds when n is a, or is
reachable from a through child steps. -/
def Desc (scn : List GObj) : String → String → Prop :=
  Relation.ReflTransGen (fun p c => c ∈ childNames scn p)

/-- Boolean check that d is a descendant depth function for the scene:
roots have depth zero and every child lies one level below its parent,
which itself belongs to the scene. -/
def forestDepthCheck (scn : List GObj) (d : String → Nat) : Bool :=
  scn.all (fun o =>
    match o.parent with
    | none => decide (d o.name = 0)
    | some p => decide (p ∈ sceneNames scn) && decide (d o.name = d p + 1))

/-- A finite acyclic parent child hierarchy, witnessed by a descendant
depth function: the formal rendering of the precondition of claim C9. -/
def IsForest (scn : List GObj) : Prop :=
  ∃ d : String → Nat, forestDepthCheck scn d = true

/-- Embedding of CLAY_OT_GroupWithSummary.summarize_names: the placeholder
for the AI summarization logic. -/
def summarize_names (_names : List String) : String :=
  "Group"

/-- The world space bound_box corners of an object. -/
def worldCorners (o : GObj) : List V3 :=
  o.bound_box.map o.matrix_world.apply

/-- One step of the min_corner loop: the accumulator none stands for the
initial Vector((inf, inf, inf)), which the first corner replaces. -/
def vminAcc (acc : Option V3) (c : V3) : Option V3 :=
  some (match acc with
        | none => c
        | some a => V3.vmin a c)

/-- One step of the max_corner loop, with none standing for minus
infinity in every component. -/
def vmaxAcc (acc : Option V3) (c : V3) : Option V3 :=
  some (match acc with
        | none => c
        | some a => V3.vmax a c)

/-- The min_corner reduction of the execute method over a corner list. -/
def min_corner (cs : List V3) : Option V3 :=
  cs.foldl vminAcc none

/-- The max_corner reduction of the execute method over a corner list. -/
def max_corner (cs : List V3) : Option V3 :=
  cs.foldl vmaxAcc none

/-- The result of running an operator over a scene: the returned status,
the reports it issued, and the final object list. -/
structure GroupResult where
  status : OpStatus
  reports : List (String × String)
  objs : List GObj
deriving DecidableEq

/-- The world space corners the execute method iterates over: the corners
of every object gathered from the selection and its descendants, with
gather_all_objects run at the scene size as recursion depth. -/
def gatherCorners (scn : List GObj) (sel : List String) : List V3 :=
  ((scn.filter (fun o =>
    decide (o.name ∈ gather_all_objects scn scn.length sel))).map worldCorners).flatten

/-- Embedding of CLAY_OT_GroupWithSummary.execute.  The selection is the
list of names of the selected objects.  On an empty selection it warns and
cancels; otherwise it gathers the selection with its descendants, reduces
their world corners to a bounding box, adds an empty at the center with
half the box size as scale, names it with the placeholder summary, and
parents every directly selected object to it.  The getD fallbacks are
unreachable on real scenes, where every object has eight bound_box
corners. -/
def group_with_summary (scn : List GObj) (sel : List String) : GroupResult :=
  if sel = [] then
    ⟨OpStatus.CANCELLED, [("WARNING", "No objects selected.")], scn⟩
  else
    let corners := gatherCorners scn sel
    let mn := (min_corner corners).getD ⟨0, 0, 0⟩
    let mx := (max_corner corners).getD ⟨0, 0, 0⟩
    let center := V3.half (V3.add mn mx)
    let size := V3.sub mx mn
    let bbName := summarize_names sel
    let bounding_box : GObj := ⟨bbName, none, [], Mat4.id, center, V3.half size⟩
    ⟨OpStatus.FINISHED, [("INFO", "Grouping done with name: " ++ bbName)],
      scn.map (fun o => if o.name ∈ sel then { o with parent := some bbName } else o)
        ++ [bounding_box]⟩

lemma childNames_mem {scn : List GObj} {p c : String} :
    c ∈ childNames scn p ↔ ∃ o, o ∈ scn ∧ o.parent = some p ∧ o.name = c := by
  constructor
  · intro h
    rcases List.mem_map.mp h with ⟨o, ho, rfl⟩
    rcases List.mem_filter.mp ho with ⟨h1, h2⟩
    exact ⟨o, h1, of_decide_eq_true h2, rfl⟩
  · rintro ⟨o, h1, h2, rfl⟩
    exact List.mem_map_of_mem _ (List.mem_filter.mpr ⟨h1, decide_eq_true h2⟩)

lemma mem_foldl_union {α β : Type} [DecidableEq β] (g : α → Finset β) (l : List α) :
    ∀ (init : Finset β) (x : β),
      x ∈ l.foldl (fun acc a => acc ∪ g a) init ↔ x ∈ init ∨ ∃ a ∈ l, x ∈ g a := by
  induction l with
  | nil => intro init x; simp
  | cons a l ih =>
      intro init x
      rw [List.foldl_cons, ih]
      simp only [Finset.mem_union, List.mem_cons]
      constructor
      · rintro ((h | h) | ⟨b, hb, hx⟩)
        · exact Or.inl h
        · exact Or.inr ⟨a, Or.inl rfl, h⟩
        · exact Or.inr ⟨b, Or.inr hb, hx⟩
      · rintro (h | ⟨b, (rfl | hb), hx⟩)
        · exact Or.inl (Or.inl h)
        · exact Or.inl (Or.inr hx)
        · exact Or.inr ⟨b, hb, hx⟩

lemma mem_gather (scn : List GObj) :
    ∀ (fuel : Nat) (ns : List String) (n : String),
      n ∈ gather_all_objects scn fuel ns ↔ ∃ a ∈ ns, StepsLe scn fuel a n := by
  intro fuel
  induction fuel with
  | zero =>
      intro ns n
      simp only [gather_all_objects, List.mem_toFinset, StepsLe]
      constructor
      · intro h; exact ⟨n, h, rfl⟩
      · rintro ⟨a, ha, rfl⟩; exact ha
  | succ fuel ih =>
      intro ns n
      simp only [gather_all_objects]
      rw [mem_foldl_union]
      simp only [List.mem_toFinset, ih, StepsLe]
      constructor
      · rintro (h | ⟨a, ha, c, hc, hs⟩)
        · exact ⟨n, h, Or.inl rfl⟩
        · exact ⟨a, ha, Or.inr ⟨c, hc, hs⟩⟩
      · rintro ⟨a, ha, (rfl | ⟨c, hc, hs⟩)⟩
        · exact Or.inl ha
        · exact Or.inr ⟨a, ha, c, hc, hs⟩

lemma stepsLe_self (scn : List GObj) : ∀ (fuel : Nat) (a : String), StepsLe scn fuel a a
  | 0, _ => rfl
  | _ + 1, _ => Or.inl rfl

lemma stepsLe_add (scn : List GObj) (j : Nat) :
    ∀ (k : Nat) (a n : String), StepsLe scn k a n → StepsLe scn (k + j) a n := by
  intro k
  induction k with
  | zero =>
      intro a n h
      have h' : n = a := h
      subst h'
      exact stepsLe_self scn (0 + j) n
  | succ k ih =>
      intro a n h
      have h' : n = a ∨ ∃ c ∈ childNames scn a, StepsLe scn k c n := h
      rw [Nat.succ_add]
      rcases h' with rfl | ⟨c, hc, hs⟩
      · exact stepsLe_self scn _ n
      · exact Or.inr ⟨c, hc, ih c n hs⟩

lemma stepsLe_mono (scn : List GObj) {k f : Nat} (hkf : k ≤ f) {a n : String}
    (h : StepsLe scn k a n) : StepsLe scn f a n := by
  obtain ⟨j, rfl⟩ := Nat.exists_eq_add_of_le hkf
  exact stepsLe_add scn j k a n h

lemma stepsLe_snoc (scn : List GObj) :
    ∀ (k : Nat) (a m c : String), StepsLe scn k a m → c ∈ childNames scn m →
      StepsLe scn (k + 1) a c := by
  intro k
  induction k with
  | zero =>
      intro a m c h hc
      have h' : m = a := h
      subst h'
      exact Or.inr ⟨c, hc, rfl⟩
  | succ k ih =>
      intro a m c h hc
      have h' : m = a ∨ ∃ b ∈ childNames scn a, StepsLe scn k b m := h
      rcases h' with rfl | ⟨b, hb, hs⟩
      · exact Or.inr ⟨c, hc, stepsLe_self scn (k + 1) c⟩
      · exact Or.inr ⟨b, hb, ih b m c hs hc⟩

lemma stepsLe_toDesc (scn : List GObj) :
    ∀ (fuel : Nat) (a n : String), StepsLe scn fuel a n → Desc scn a n := by
  intro fuel
  induction fuel with
  | zero =>
      intro a n h
      have h' : n = a := h
      subst h'
      exact Relation.ReflTransGen.refl
  | succ fuel ih =>
      intro a n h
      have h' : n = a ∨ ∃ c ∈ childNames scn a, StepsLe scn fuel c n := h
      rcases h' with rfl | ⟨c, hc, hs⟩
      · exact Relation.ReflTransGen.refl
      · exact Relation.ReflTransGen.head hc (ih c n hs)

lemma forest_root {scn : List GObj} {d : String → Nat}
    (hf : forestDepthCheck scn d = true) {o : GObj} (ho : o ∈ scn)
    (hp : o.parent = none) : d o.name = 0 := by
  have h := List.all_eq_true.mp hf o ho
  simp only [hp] at h
  exact of_decide_eq_true h

lemma forest_child {scn : List GObj} {d : String → Nat}
    (hf : forestDepthCheck scn d = true) {o : GObj} {p : String} (ho : o ∈ scn)
    (hp : o.parent = some p) : p ∈ sceneNames scn ∧ d o.name = d p + 1 := by
  have h := List.all_eq_true.mp hf o ho
  simp only [hp, Bool.and_eq_true, decide_eq_true_eq] at h
  exact h

lemma forest_step {scn : List GObj} {d : String → Nat}
    (hf : forestDepthCheck scn d = true) {p c : String}
    (hc : c ∈ childNames scn p) :
    d c = d p + 1 ∧ ∃ o ∈ scn, o.name = c := by
  rcases childNames_mem.mp hc with ⟨o, ho, hp, rfl⟩
  exact ⟨(forest_child hf ho hp).2, ⟨o, ho, rfl⟩⟩

lemma forest_depth_onto {scn : List GObj} {d : String → Nat}
    (hf : forestDepthCheck scn d = true) :
    ∀ (k : Nat) (o : GObj), o ∈ scn → d o.name = k →
      ∀ j, j ≤ k → ∃ n ∈ sceneNames scn, d n = j := by
  intro k
  induction k using Nat.strong_induction_on with
  | _ k ih =>
      intro o ho hk j hj
      rcases Nat.eq_or_lt_of_le hj with rfl | hlt
      · exact ⟨o.name, List.mem_map_of_mem _ ho, hk⟩
      · cases hp : o.parent with
        | none =>
            have h0 := forest_root hf ho hp
            omega
        | some p =>
            obtain ⟨hpmem, hdp⟩ := forest_child hf ho hp
            rcases List.mem_map.mp hpmem with ⟨o', ho', hname⟩
            have hd' : d o'.name = k - 1 := by rw [hname]; omega
            exact ih (k - 1) (by omega) o' ho' hd' j (by omega)

lemma forest_depth_lt {scn : List GObj} {d : String → Nat}
    (hf : forestDepthCheck scn d = true) {o : GObj} (ho : o ∈ scn) :
    d o.name < scn.length := by
  have hsub : Finset.range (d o.name + 1) ⊆ (sceneNames scn).toFinset.image d := by
    intro j hj
    rcases forest_depth_onto hf (d o.name) o ho rfl j
        (Nat.lt_succ_iff.mp (Finset.mem_range.mp hj)) with ⟨n, hn, hdn⟩
    exact Finset.mem_image.mpr ⟨n, List.mem_toFinset.mpr hn, hdn⟩
  have h1 := Finset.card_le_card hsub
  rw [Finset.card_range] at h1
  have h2 : ((sceneNames scn).toFinset.image d).card ≤ (sceneNames scn).toFinset.card :=
    Finset.card_image_le
  have h3 := List.toFinset_card_le (sceneNames scn)
  have h4 : (sceneNames scn).length = scn.length := List.length_map scn GObj.name
  omega

lemma desc_steps {scn : List GObj} {d : String → Nat}
    (hf : forestDepthCheck scn d = true) {a n : String} (h : Desc scn a n) :
    ∃ k, StepsLe scn k a n ∧ d n = d a + k ∧
      ((k = 0 ∧ n = a) ∨ ∃ o ∈ scn, o.name = n) := by
  induction h with
  | refl => exact ⟨0, rfl, by omega, Or.inl ⟨rfl, rfl⟩⟩
  | tail hst hstep ih =>
      rcases ih with ⟨k, hs, hd, _⟩
      obtain ⟨hdc, hobj⟩ := forest_step hf hstep
      exact ⟨k + 1, stepsLe_snoc scn k _ _ _ hs hstep, by omega, Or.inr hobj⟩

lemma desc_to_stepsLe {scn : List GObj} {d : String → Nat}
    (hf : forestDepthCheck scn d = true) {a n : String} (h : Desc scn a n)
    {f : Nat} (hfuel : scn.length ≤ f) : StepsLe scn f a n := by
  rcases desc_steps hf h with ⟨k, hs, hd, hcase⟩
  rcases hcase with ⟨rfl, rfl⟩ | ⟨o, ho, rfl⟩
  · exact stepsLe_self scn f n
  · have hlt : d o.name < scn.length := forest_depth_lt hf ho
    have hk : k ≤ f := by omega
    exact stepsLe_mono scn hk hs

lemma mem_gather_desc {scn : List GObj} (hf : IsForest scn) {f : Nat}
    (hfuel : scn.length ≤ f) (ns : List String) (n : String) :
    n ∈ gather_all_objects scn f ns ↔ ∃ a ∈ ns, Desc scn a n := by
  obtain ⟨d, hd⟩ := hf
  rw [mem_gather]
  constructor
  · rintro ⟨a, ha, hs⟩
    exact ⟨a, ha, stepsLe_toDesc scn f a n hs⟩
  · rintro ⟨a, ha, hdesc⟩
    exact ⟨a, ha, desc_to_stepsLe hd hdesc hfuel⟩

/-- C9: on a finite acyclic parent child hierarchy (witnessed by a
descendant depth function) gather_all_objects terminates, in the sense
that the scene size bounds the recursion depth and any further fuel leaves
the result unchanged, and it returns exactly the given objects together
with all their descendants. -/
theorem C9_gather_terminates_closure (scn : List GObj) (sel : List String)
    (hf : IsForest scn) :
    (∀ f, scn.length ≤ f →
      gather_all_objects scn f sel = gather_all_objects scn scn.length sel) ∧
    (∀ n, n ∈ gather_all_objects scn scn.length sel ↔ ∃ a ∈ sel, Desc scn a n) := by
  constructor
  · intro f hfuel
    apply Finset.ext
    intro n
    rw [mem_gather_desc hf hfuel, mem_gather_desc hf (le_refl scn.length)]
  · intro n
    exact mem_gather_desc hf (le_refl scn.length) sel n

/-- A two object demo scene: a root and one child, used by witnesses. -/
def demoRoot : GObj :=
  ⟨"Root", none, [⟨0, 0, 0⟩, ⟨2, 2, 2⟩], Mat4.id, ⟨0, 0, 0⟩, ⟨1, 1, 1⟩⟩

/-- The child object of the demo scene. -/
def demoChild : GObj :=
  ⟨"Child", some "Root", [⟨0, 0, 0⟩, ⟨1, 1, 1⟩], Mat4.id, ⟨0, 0, 0⟩, ⟨1, 1, 1⟩⟩

/-- The demo scene itself. -/
def demoScene : List GObj := [demoRoot, demoChild]

/-- A descendant depth function for the demo scene. -/
def demoDepth : String → Nat := fun n => if n = "Child" then 1 else 0

theorem C9_gather_terminates_closure_witness :
    IsForest demoScene ∧
    ((∀ f, demoScene.length ≤ f →
        gather_all_objects demoScene f ["Root"] =
          gather_all_objects demoScene demoScene.length ["Root"]) ∧
      (∀ n, n ∈ gather_all_objects demoScene demoScene.length ["Root"] ↔
        ∃ a ∈ ["Root"], Desc demoScene a n)) :=
  ⟨⟨demoDepth, by decide⟩,
    C9_gather_terminates_closure demoScene ["Root"] ⟨demoDepth, by decide⟩⟩

/-- C8: on an empty selection the grouping operator reports a warning,
returns CANCELLED and leaves the scene untouched: no empty is created and
no parent changes. -/
theorem C8_empty_selection_cancels :
    ∀ scn : List GObj, group_with_summary scn [] =
      ⟨OpStatus.CANCELLED, [("WARNING", "No objects selected.")], scn⟩ := by
  intro scn
  simp [group_with_summary]

lemma map_append_getElem {α β : Type} (l : List α) (f : α → β) (b : β) (i : Nat) (a : α)
    (h : l[i]? = some a) : (l.map f ++ [b])[i]? = some (f a) := by
  have hi : i < l.length := (List.getElem?_eq_some_iff.mp h).1
  rw [List.getElem?_append_left (by simpa using hi), List.getElem?_map, h]
  rfl

/-- C6: on a non empty selection the operator appends exactly one new
object, the bounding box empty; every directly selected object ends
parented to that empty while every other object of the scene is left
entirely unchanged. -/
theorem C6_selected_parented_to_empty (scn : List GObj) (sel : List String)
    (hsel : sel ≠ []) :
    ∃ e : GObj,
      (group_with_summary scn sel).objs.getLast? = some e ∧
      (group_with_summary scn sel).objs.length = scn.length + 1 ∧
      ∀ (i : Nat) (o : GObj), scn[i]? = some o →
        ((o.name ∈ sel → ∃ o', (group_with_summary scn sel).objs[i]? = some o' ∧
            o'.parent = some e.name ∧ o'.name = o.name) ∧
         (o.name ∉ sel → (group_with_summary scn sel).objs[i]? = some o)) := by
  simp only [group_with_summary, if_neg hsel]
  refine ⟨_, List.getLast?_concat _, by simp, ?_⟩
  intro i o hio
  constructor
  · intro hmem
    refine ⟨_, map_append_getElem scn _ _ i o hio, ?_, ?_⟩
    · simp [if_pos hmem]
    · simp [if_pos hmem]
  · intro hmem
    rw [map_append_getElem scn _ _ i o hio, if_neg hmem]

theorem C6_selected_parented_to_empty_witness :
    (["Root"] ≠ ([] : List String)) ∧
    (∃ e : GObj,
      (group_with_summary demoScene ["Root"]).objs.getLast? = some e ∧
      (group_with_summary demoScene ["Root"]).objs.length = demoScene.length + 1 ∧
      ∀ (i : Nat) (o : GObj), demoScene[i]? = some o →
        ((o.name ∈ ["Root"] → ∃ o', (group_with_summary demoScene ["Root"]).objs[i]? = some o' ∧
            o'.parent = some e.name ∧ o'.name = o.name) ∧
         (o.name ∉ ["Root"] → (group_with_summary demoScene ["Root"]).objs[i]? = some o))) :=
  ⟨by decide, C6_selected_parented_to_empty demoScene ["Root"] (by decide)⟩

/-- C7: summarize_names is the constant placeholder Group on every input,
and on a non empty selection the bounding box empty created by the
operator carries exactly that placeholder name. -/
theorem C7_summary_is_placeholder_group :
    (∀ names : List String, summarize_names names = "Group") ∧
    ∀ (scn : List GObj) (sel : List String), sel ≠ [] →
      ((group_with_summary scn sel).objs.getLast?).map GObj.name = some "Group" := by
  refine ⟨fun _ => rfl, ?_⟩
  intro scn sel hsel
  simp only [group_with_summary, if_neg hsel]
  rw [List.getLast?_concat]
  rfl

theorem C7_summary_is_placeholder_group_witness :
    (["Root"] ≠ ([] : List String)) ∧
    ((group_with_summary demoScene ["Root"]).objs.getLast?).map GObj.name = some "Group" :=
  ⟨by decide, C7_summary_is_placeholder_group.2 demoScene ["Root"] (by decide)⟩

lemma foldl_vminAcc_some (cs : List V3) :
    ∀ a : V3, cs.foldl vminAcc (some a) = some (cs.foldl V3.vmin a) := by
  induction cs with
  | nil => intro a; rfl
  | cons c cs ih =>
      intro a
      rw [List.foldl_cons, List.foldl_cons]
      exact ih (a.vmin c)

lemma foldl_vmaxAcc_some (cs : List V3) :
    ∀ a : V3, cs.foldl vmaxAcc (some a) = some (cs.foldl V3.vmax a) := by
  induction cs with
  | nil => intro a; rfl
  | cons c cs ih =>
      intro a
      rw [List.foldl_cons, List.foldl_cons]
      exact ih (a.vmax c)

lemma min_corner_cons (c : V3) (cs : List V3) :
    min_corner (c :: cs) = some (cs.foldl V3.vmin c) :=
  foldl_vminAcc_some cs c

lemma max_corner_cons (c : V3) (cs : List V3) :
    max_corner (c :: cs) = some (cs.foldl V3.vmax c) :=
  foldl_vmaxAcc_some cs c

lemma foldl_min_le_init (l : List ℚ) : ∀ a : ℚ, l.foldl min a ≤ a := by
  induction l with
  | nil => intro a; exact le_refl a
  | cons b l ih =>
      intro a
      rw [List.foldl_cons]
      exact le_trans (ih (min a b)) (min_le_left a b)

lemma foldl_min_le_mem (l : List ℚ) : ∀ (a q : ℚ), q ∈ l → l.foldl min a ≤ q := by
  induction l with
  | nil => intro a q hq; cases hq
  | cons b l ih =>
      intro a q hq
      rw [List.foldl_cons]
      rcases List.mem_cons.mp hq with rfl | hq
      · exact le_trans (foldl_min_le_init l (min a q)) (min_le_right a q)
      · exact ih (min a b) q hq

lemma foldl_min_cases (l : List ℚ) : ∀ a : ℚ, l.foldl min a = a ∨ l.foldl min a ∈ l := by
  induction l with
  | nil => intro a; exact Or.inl rfl
  | cons b l ih =>
      intro a
      rw [List.foldl_cons]
      rcases ih (min a b) with h | h
      · rcases min_choice a b with hab | hab
        · exact Or.inl (h.trans hab)
        · exact Or.inr (by rw [h, hab]; exact List.mem_cons_self b l)
      · exact Or.inr (List.mem_cons_of_mem b h)

lemma foldl_max_init_le (l : List ℚ) : ∀ a : ℚ, a ≤ l.foldl max a := by
  induction l with
  | nil => intro a; exact le_refl a
  | cons b l ih =>
      intro a
      rw [List.foldl_cons]
      exact le_trans (le_max_left a b) (ih (max a b))

lemma foldl_max_mem_le (l : List ℚ) : ∀ (a q : ℚ), q ∈ l → q ≤ l.foldl max a := by
  induction l with
  | nil => intro a q hq; cases hq
  | cons b l ih =>
      intro a q hq
      rw [List.foldl_cons]
      rcases List.mem_cons.mp hq with rfl | hq
      · exact le_trans (le_max_right a q) (foldl_max_init_le l (max a q))
      · exact ih (max a b) q hq

lemma foldl_max_cases (l : List ℚ) : ∀ a : ℚ, l.foldl max a = a ∨ l.foldl max a ∈ l := by
  induction l with
  | nil => intro a; exact Or.inl rfl
  | cons b l ih =>
      intro a
      rw [List.foldl_cons]
      rcases ih (max a b) with h | h
      · rcases max_choice a b with hab | hab
        · exact Or.inl (h.trans hab)
        · exact Or.inr (by rw [h, hab]; exact List.mem_cons_self b l)
      · exact Or.inr (List.mem_cons_of_mem b h)

lemma foldl_vmin_proj (cs : List V3) : ∀ a : V3,
    (cs.foldl V3.vmin a).x = (cs.map V3.x).foldl min a.x ∧
    (cs.foldl V3.vmin a).y = (cs.map V3.y).foldl min a.y ∧
    (cs.foldl V3.vmin a).z = (cs.map V3.z).foldl min a.z := by
  induction cs with
  | nil => intro a; exact ⟨rfl, rfl, rfl⟩
  | cons c cs ih =>
      intro a
      simp only [List.foldl_cons, List.map_cons]
      exact ih (a.vmin c)

lemma foldl_vmax_proj (cs : List V3) : ∀ a : V3,
    (cs.foldl V3.vmax a).x = (cs.map V3.x).foldl max a.x ∧
    (cs.foldl V3.vmax a).y = (cs.map V3.y).foldl max a.y ∧
    (cs.foldl V3.vmax a).z = (cs.map V3.z).foldl max a.z := by
  induction cs with
  | nil => intro a; exact ⟨rfl, rfl, rfl⟩
  | cons c cs ih =>
      intro a
      simp only [List.foldl_cons, List.map_cons]
      exact ih (a.vmax c)

lemma min_corner_spec (cs : List V3) (h : cs ≠ []) :
    ∃ mn, min_corner cs = some mn ∧
      (∀ c ∈ cs, mn.x ≤ c.x ∧ mn.y ≤ c.y ∧ mn.z ≤ c.z) ∧
      (∃ c ∈ cs, c.x = mn.x) ∧ (∃ c ∈ cs, c.y = mn.y) ∧ (∃ c ∈ cs, c.z = mn.z) := by
  rcases cs with _ | ⟨c0, cs⟩
  · exact absurd rfl h
  obtain ⟨px, py, pz⟩ := foldl_vmin_proj cs c0
  refine ⟨cs.foldl V3.vmin c0, min_corner_cons c0 cs, ?_, ?_, ?_, ?_⟩
  · intro c hc
    rcases List.mem_cons.mp hc with rfl | hc
    · exact ⟨px ▸ foldl_min_le_init (cs.map V3.x) c.x,
        py ▸ foldl_min_le_init (cs.map V3.y) c.y,
        pz ▸ foldl_min_le_init (cs.map V3.z) c.z⟩
    · exact ⟨px ▸ foldl_min_le_mem (cs.map V3.x) c0.x c.x (List.mem_map_of_mem V3.x hc),
        py ▸ foldl_min_le_mem (cs.map V3.y) c0.y c.y (List.mem_map_of_mem V3.y hc),
        pz ▸ foldl_min_le_mem (cs.map V3.z) c0.z c.z (List.mem_map_of_mem V3.z hc)⟩
  · rcases foldl_min_cases (cs.map V3.x) c0.x with hx | hx
    · exact ⟨c0, List.mem_cons_self c0 cs, by rw [px, hx]⟩
    · rcases List.mem_map.mp hx with ⟨c, hcmem, hcx⟩
      exact ⟨c, List.mem_cons_of_mem c0 hcmem, by rw [px, hcx]⟩
  · rcases foldl_min_cases (cs.map V3.y) c0.y with hy | hy
    · exact ⟨c0, List.mem_cons_self c0 cs, by rw [py, hy]⟩
    · rcases List.mem_map.mp hy with ⟨c, hcmem, hcy⟩
      exact ⟨c, List.mem_cons_of_mem c0 hcmem, by rw [py, hcy]⟩
  · rcases foldl_min_cases (cs.map V3.z) c0.z with hz | hz
    · exact ⟨c0, List.mem_cons_self c0 cs, by rw [pz, hz]⟩
    · rcases List.mem_map.mp hz with ⟨c, hcmem, hcz⟩
      exact ⟨c, List.mem_cons_of_mem c0 hcmem, by rw [pz, hcz]⟩

lemma max_corner_spec (cs : List V3) (h : cs ≠ []) :
    ∃ mx, max_corner cs = some mx ∧
      (∀ c ∈ cs, c.x ≤ mx.x ∧ c.y ≤ mx.y ∧ c.z ≤ mx.z) ∧
      (∃ c ∈ cs, c.x = mx.x) ∧ (∃ c ∈ cs, c.y = mx.y) ∧ (∃ c ∈ cs, c.z = mx.z) := by
  rcases cs with _ | ⟨c0, cs⟩
  · exact absurd rfl h
  obtain ⟨px, py, pz⟩ := foldl_vmax_proj cs c0
  refine ⟨cs.foldl V3.vmax c0, max_corner_cons c0 cs, ?_, ?_, ?_, ?_⟩
  · intro c hc
    rcases List.mem_cons.mp hc with rfl | hc
    · exact ⟨px ▸ foldl_max_init_le (cs.map V3.x) c.x,
        py ▸ foldl_max_init_le (cs.map V3.y) c.y,
        pz ▸ foldl_max_init_le (cs.map V3.z) c.z⟩
    · exact ⟨px ▸ foldl_max_mem_le (cs.map V3.x) c0.x c.x (List.mem_map_of_mem V3.x hc),
        py ▸ foldl_max_mem_le (cs.map V3.y) c0.y c.y (List.mem_map_of_mem V3.y hc),
        pz ▸ foldl_max_mem_le (cs.map V3.z) c0.z c.z (List.mem_map_of_mem V3.z hc)⟩
  · rcases foldl_max_cases (cs.map V3.x) c0.x with hx | hx
    · exact ⟨c0, List.mem_cons_self c0 cs, by rw [px, hx]⟩
    · rcases List.mem_map.mp hx with ⟨c, hcmem, hcx⟩
      exact ⟨c, List.mem_cons_of_mem c0 hcmem, by rw [px, hcx]⟩
  · rcases foldl_max_cases (cs.map V3.y) c0.y with hy | hy
    · exact ⟨c0, List.mem_cons_self c0 cs, by rw [py, hy]⟩
    · rcases List.mem_map.mp hy with ⟨c, hcmem, hcy⟩
      exact ⟨c, List.mem_cons_of_mem c0 hcmem, by rw [py, hcy]⟩
  · rcases foldl_max_cases (cs.map V3.z) c0.z with hz | hz
    · exact ⟨c0, List.mem_cons_self c0 cs, by rw [pz, hz]⟩
    · rcases List.mem_map.mp hz with ⟨c, hcmem, hcz⟩
      exact ⟨c, List.mem_cons_of_mem c0 hcmem, by rw [pz, hcz]⟩

/-- A world space bound_box corner of an object reached from the
selection: the corners claim C5 takes the componentwise extremes over. -/
def DescCorner (scn : List GObj) (sel : List String) (c : V3) : Prop :=
  ∃ o, o ∈ scn ∧ (∃ a ∈ sel, Desc scn a o.name) ∧ c ∈ worldCorners o

lemma mem_gatherCorners {scn : List GObj} {sel : List String} (hf : IsForest scn) (c : V3) :
    c ∈ gatherCorners scn sel ↔ DescCorner scn sel c := by
  rw [gatherCorners, List.mem_flatten]
  constructor
  · rintro ⟨l, hl, hc⟩
    rcases List.mem_map.mp hl with ⟨o, ho, rfl⟩
    rcases List.mem_filter.mp ho with ⟨h1, h2⟩
    exact ⟨o, h1, (mem_gather_desc hf (le_refl scn.length) sel o.name).mp
      (of_decide_eq_true h2), hc⟩
  · rintro ⟨o, ho, hdesc, hc⟩
    exact ⟨worldCorners o, List.mem_map_of_mem worldCorners (List.mem_filter.mpr ⟨ho,
      decide_eq_true ((mem_gather_desc hf (le_refl scn.length) sel o.name).mpr hdesc)⟩), hc⟩

lemma descCorner_of_selected {scn : List GObj} {sel : List String}
    (hsel : sel ≠ []) (hsub : ∀ n ∈ sel, n ∈ sceneNames scn)
    (hbb : ∀ o ∈ scn, o.bound_box ≠ []) : ∃ c, DescCorner scn sel c := by
  rcases sel with _ | ⟨a, sel'⟩
  · exact absurd rfl hsel
  have ha : a ∈ sceneNames scn := hsub a (List.mem_cons_self a sel')
  rcases List.mem_map.mp ha with ⟨o, ho, rfl⟩
  rcases List.exists_mem_of_ne_nil o.bound_box (hbb o ho) with ⟨b, hb⟩
  exact ⟨o.matrix_world.apply b, o, ho,
    ⟨o.name, List.mem_cons_self o.name sel', Relation.ReflTransGen.refl⟩,
    List.mem_map_of_mem o.matrix_world.apply hb⟩

/-- C5: on a non empty selection of scene objects, over any acyclic
hierarchy in which every object has bound_box corners, the operator
creates its empty at location half the sum of the componentwise minimum
and maximum over the world space bound_box corners of the selected
objects and all their descendants, with half their difference as scale:
the empty encapsulates the combined extents of the selection. -/
theorem C5_bounding_box_encapsulates (scn : List GObj) (sel : List String)
    (hsel : sel ≠ [])
    (hsub : ∀ n ∈ sel, n ∈ sceneNames scn) (hf : IsForest scn)
    (hbb : ∀ o ∈ scn, o.bound_box ≠ []) :
    ∃ mn mx e,
      (group_with_summary scn sel).objs.getLast? = some e ∧
      e.location = V3.half (V3.add mn mx) ∧
      e.scale = V3.half (V3.sub mx mn) ∧
      (∀ c, DescCorner scn sel c →
        mn.x ≤ c.x ∧ mn.y ≤ c.y ∧ mn.z ≤ c.z ∧ c.x ≤ mx.x ∧ c.y ≤ mx.y ∧ c.z ≤ mx.z) ∧
      (∃ c, DescCorner scn sel c ∧ c.x = mn.x) ∧
      (∃ c, DescCorner scn sel c ∧ c.y = mn.y) ∧
      (∃ c, DescCorner scn sel c ∧ c.z = mn.z) ∧
      (∃ c, DescCorner scn sel c ∧ c.x = mx.x) ∧
      (∃ c, DescCorner scn sel c ∧ c.y = mx.y) ∧
      (∃ c, DescCorner scn sel c ∧ c.z = mx.z) := by
  have hne : gatherCorners scn sel ≠ [] := by
    rcases descCorner_of_selected hsel hsub hbb with ⟨c, hc⟩
    intro h0
    have hcmem := (mem_gatherCorners hf c).mpr hc
    rw [h0] at hcmem
    cases hcmem
  rcases min_corner_spec (gatherCorners scn sel) hne with ⟨mn, hmn, hmnb, hmnx, hmny, hmnz⟩
  rcases max_corner_spec (gatherCorners scn sel) hne with ⟨mx, hmx, hmxb, hmxx, hmxy, hmxz⟩
  refine ⟨mn, mx,
    ⟨summarize_names sel, none, [], Mat4.id,
      V3.half (V3.add ((min_corner (gatherCorners scn sel)).getD ⟨0, 0, 0⟩)
        ((max_corner (gatherCorners scn sel)).getD ⟨0, 0, 0⟩)),
      V3.half (V3.sub ((max_corner (gatherCorners scn sel)).getD ⟨0, 0, 0⟩)
        ((min_corner (gatherCorners scn sel)).getD ⟨0, 0, 0⟩))⟩,
    ?_, ?_, ?_, ?_, ?_, ?_, ?_, ?_, ?_, ?_⟩
  · simp only [group_with_summary, if_neg hsel]
    exact List.getLast?_concat _
  · simp only [hmn, hmx, Option.getD_some]
  · simp only [hmn, hmx, Option.getD_some]
  · intro c hc
    have hcmem := (mem_gatherCorners hf c).mpr hc
    obtain ⟨h1, h2, h3⟩ := hmnb c hcmem
    obtain ⟨h4, h5, h6⟩ := hmxb c hcmem
    exact ⟨h1, h2, h3, h4, h5, h6⟩
  · rcases hmnx with ⟨c, hcmem, hcx⟩
    exact ⟨c, (mem_gatherCorners hf c).mp hcmem, hcx⟩
  · rcases hmny with ⟨c, hcmem, hcy⟩
    exact ⟨c, (mem_gatherCorners hf c).mp hcmem, hcy⟩
  · rcases hmnz with ⟨c, hcmem, hcz⟩
    exact ⟨c, (mem_gatherCorners hf c).mp hcmem, hcz⟩
  · rcases hmxx with ⟨c, hcmem, hcx⟩
    exact ⟨c, (mem_gatherCorners hf c).mp hcmem, hcx⟩
  · rcases hmxy with ⟨c, hcmem, hcy⟩
    exact ⟨c, (mem_gatherCorners hf c).mp hcmem, hcy⟩
  · rcases hmxz with ⟨c, hcmem, hcz⟩
    exact ⟨c, (mem_gatherCorners hf c).mp hcmem, hcz⟩

theorem C5_bounding_box_encapsulates_witness :
    ((["Root"] ≠ ([] : List String)) ∧
      (∀ n ∈ ["Root"], n ∈ sceneNames demoScene) ∧ IsForest demoScene ∧
      (∀ o ∈ demoScene, o.bound_box ≠ [])) ∧
    (∃ mn mx e,
      (group_with_summary demoScene ["Root"]).objs.getLast? = some e ∧
      e.location = V3.half (V3.add mn mx) ∧
      e.scale = V3.half (V3.sub mx mn) ∧
      (∀ c, DescCorner demoScene ["Root"] c →
        mn.x ≤ c.x ∧ mn.y ≤ c.y ∧ mn.z ≤ c.z ∧ c.x ≤ mx.x ∧ c.y ≤ mx.y ∧ c.z ≤ mx.z) ∧
      (∃ c, DescCorner demoScene ["Root"] c ∧ c.x = mn.x) ∧
      (∃ c, DescCorner demoScene ["Root"] c ∧ c.y = mn.y) ∧
      (∃ c, DescCorner demoScene ["Root"] c ∧ c.z = mn.z) ∧
      (∃ c, DescCorner demoScene ["Root"] c ∧ c.x = mx.x) ∧
      (∃ c, DescCorner demoScene ["Root"] c ∧ c.y = mx.y) ∧
      (∃ c, DescCorner demoScene ["Root"] c ∧ c.z = mx.z)) :=
  ⟨⟨by decide, by decide, ⟨demoDepth, by decide⟩, by decide⟩,
    C5_bounding_box_encapsulates demoScene ["Root"] (by decide) (by decide)
      ⟨demoDepth, by decide⟩ (by decide)⟩
